import Mathlib

/-! Condition and finalizer helpers of `apiextensions-apiserver/pkg/utils/helpers.go`.

A shallow embedding of the helper functions that edit the status conditions and
the finalizers of a `CustomResourceDefinition`, followed by the properties
proved about them.

Conventions of the embedding:

* the Go functions mutate the object behind `crd`; here every mutator returns
  the object after the call;
* a pointer `&crd.Status.Conditions[i]` is the index `i` into the condition
  list, and a write through the pointer is `storeAt` at that index;
* `time.Now()` is an explicit argument `now` of `SetCRDCondition`;
* a nil pointer to a condition is `none`.
-/

namespace Utils

/-- Modelled from the spec: `metav1.Time`, declared outside the files at hand.
The helpers only copy time values, so a clock reading is a natural number. -/
abbrev Time := Nat

/-- Modelled from the spec: `apiextensions.CustomResourceDefinitionConditionType`,
a string type declared outside the files at hand. -/
abbrev CustomResourceDefinitionConditionType := String

/-- Modelled from the spec: `apiextensions.ConditionStatus`, a string type
declared outside the files at hand. -/
abbrev ConditionStatus := String

/-- Modelled from the spec: the status constant `ConditionTrue`. -/
def ConditionTrue : ConditionStatus := "True"

/-- Modelled from the spec: the status constant `ConditionFalse`. -/
def ConditionFalse : ConditionStatus := "False"

/-- Modelled from the spec: the status constant `ConditionUnknown`. -/
def ConditionUnknown : ConditionStatus := "Unknown"

/-- Modelled from the spec: `apiextensions.CustomResourceDefinitionCondition`
with the five attributes the spec lists (`Type`, `Status`,
`LastTransitionTime`, `Reason`, `Message`). The Go field `Type` is `Type_`
here. -/
structure CustomResourceDefinitionCondition where
  Type_ : CustomResourceDefinitionConditionType
  Status : ConditionStatus
  LastTransitionTime : Time
  Reason : String
  Message : String
  deriving DecidableEq, Repr

/-- Modelled from the spec: `apiextensions.CustomResourceDefinitionStatus`,
of which the helpers use the ordered condition list. -/
structure CustomResourceDefinitionStatus where
  Conditions : List CustomResourceDefinitionCondition
  deriving DecidableEq, Repr

/-- Modelled from the spec: `apiextensions.CustomResourceDefinition`, of which
the helpers use the name, the finalizer list and the status. -/
structure CustomResourceDefinition where
  Name : String
  Finalizers : List String
  Status : CustomResourceDefinitionStatus
  deriving DecidableEq, Repr

/-- The loop of `FindCRDCondition` started at index `i` over the remaining
conditions: the index of the first condition of type `conditionType`. -/
def findFrom (conditionType : CustomResourceDefinitionConditionType) :
    List CustomResourceDefinitionCondition → Nat → Option Nat
  | [], _ => none
  | c :: rest, i => if c.Type_ = conditionType then some i else findFrom conditionType rest (i + 1)

/-- `FindCRDCondition` returns the condition you're looking for or nil. The
returned pointer `&crd.Status.Conditions[i]` is the index `i`. -/
def FindCRDCondition (crd : CustomResourceDefinition)
    (conditionType : CustomResourceDefinitionConditionType) : Option Nat :=
  findFrom conditionType crd.Status.Conditions 0

/-- A write through the pointer to element `p` of a condition list: the
element at index `p` becomes `f` of itself, every other element stays. -/
def storeAt (f : CustomResourceDefinitionCondition → CustomResourceDefinitionCondition) :
    List CustomResourceDefinitionCondition → Nat → List CustomResourceDefinitionCondition
  | [], _ => []
  | c :: rest, 0 => f c :: rest
  | c :: rest, p + 1 => c :: storeAt f rest p

/-- The writes `SetCRDCondition` makes through `existingCondition` when a
condition of the type exists: `Status` and `LastTransitionTime` only when the
status differs, `Reason` and `Message` always. -/
def overwrite (newCondition existingCondition : CustomResourceDefinitionCondition) :
    CustomResourceDefinitionCondition :=
  let e1 :=
    if existingCondition.Status ≠ newCondition.Status then
      { existingCondition with
          Status := newCondition.Status
          LastTransitionTime := newCondition.LastTransitionTime }
    else existingCondition
  { e1 with Reason := newCondition.Reason, Message := newCondition.Message }

/-- `SetCRDCondition` sets the status condition. It either overwrites the
existing one or creates a new one. `now` is the reading of `time.Now()`. -/
def SetCRDCondition (crd : CustomResourceDefinition)
    (newCondition : CustomResourceDefinitionCondition) (now : Time) : CustomResourceDefinition :=
  match FindCRDCondition crd newCondition.Type_ with
  | none =>
    { crd with
        Status := { Conditions :=
          crd.Status.Conditions ++ [{ newCondition with LastTransitionTime := now }] } }
  | some p =>
    { crd with Status := { Conditions := storeAt (overwrite newCondition) crd.Status.Conditions p } }

/-- The loop of `RemoveCRDCondition`: `newConditions` is the list built so far,
each remaining condition of another type is appended to it. -/
def removeLoop (conditionType : CustomResourceDefinitionConditionType) :
    List CustomResourceDefinitionCondition → List CustomResourceDefinitionCondition →
    List CustomResourceDefinitionCondition
  | newConditions, [] => newConditions
  | newConditions, condition :: rest =>
    if condition.Type_ ≠ conditionType then
      removeLoop conditionType (newConditions ++ [condition]) rest
    else removeLoop conditionType newConditions rest

/-- `RemoveCRDCondition` removes the status condition. -/
def RemoveCRDCondition (crd : CustomResourceDefinition)
    (conditionType : CustomResourceDefinitionConditionType) : CustomResourceDefinition :=
  { crd with Status := { Conditions := removeLoop conditionType [] crd.Status.Conditions } }

/-- The loop of `IsCRDConditionPresentAndEqual` over the remaining conditions. -/
def presentAndEqualLoop (conditionType : CustomResourceDefinitionConditionType)
    (status : ConditionStatus) : List CustomResourceDefinitionCondition → Bool
  | [] => false
  | condition :: rest =>
    if condition.Type_ = conditionType then decide (condition.Status = status)
    else presentAndEqualLoop conditionType status rest

/-- `IsCRDConditionPresentAndEqual` indicates if the condition is present and
equal to the arg. -/
def IsCRDConditionPresentAndEqual (crd : CustomResourceDefinition)
    (conditionType : CustomResourceDefinitionConditionType) (status : ConditionStatus) : Bool :=
  presentAndEqualLoop conditionType status crd.Status.Conditions

/-- `IsCRDConditionTrue` indicates if the condition is present and strictly true. -/
def IsCRDConditionTrue (crd : CustomResourceDefinition)
    (conditionType : CustomResourceDefinitionConditionType) : Bool :=
  IsCRDConditionPresentAndEqual crd conditionType ConditionTrue

/-- `IsCRDConditionFalse` indicates if the condition is present and false. -/
def IsCRDConditionFalse (crd : CustomResourceDefinition)
    (conditionType : CustomResourceDefinitionConditionType) : Bool :=
  IsCRDConditionPresentAndEqual crd conditionType ConditionFalse

/-- `IsCRDConditionEquivalent` returns true if the lhs and rhs are equivalent
except for times. A nil pointer is `none`. -/
def IsCRDConditionEquivalent : Option CustomResourceDefinitionCondition →
    Option CustomResourceDefinitionCondition → Bool
  | none, none => true
  | none, some _ => false
  | some _, none => false
  | some lhs, some rhs =>
    decide (lhs.Message = rhs.Message) && decide (lhs.Reason = rhs.Reason) &&
      decide (lhs.Status = rhs.Status) && decide (lhs.Type_ = rhs.Type_)

/-- The loop of `CRDHasFinalizer` over the remaining finalizers. -/
def hasFinalizerLoop (needle : String) : List String → Bool
  | [] => false
  | finalizer :: rest => if finalizer = needle then true else hasFinalizerLoop needle rest

/-- `CRDHasFinalizer` returns true if the finalizer is in the list. -/
def CRDHasFinalizer (crd : CustomResourceDefinition) (needle : String) : Bool :=
  hasFinalizerLoop needle crd.Finalizers

/-- The loop of `CRDRemoveFinalizer`: `newFinalizers` is the list built so
far, each remaining finalizer other than `needle` is appended to it. -/
def removeFinalizerLoop (needle : String) : List String → List String → List String
  | newFinalizers, [] => newFinalizers
  | newFinalizers, finalizer :: rest =>
    if finalizer ≠ needle then removeFinalizerLoop needle (newFinalizers ++ [finalizer]) rest
    else removeFinalizerLoop needle newFinalizers rest

/-- `CRDRemoveFinalizer` removes the finalizer if present. -/
def CRDRemoveFinalizer (crd : CustomResourceDefinition) (needle : String) :
    CustomResourceDefinition :=
  { crd with Finalizers := removeFinalizerLoop needle [] crd.Finalizers }

/-- The condition a pointer (an index into the condition list) points at. -/
def deref (crd : CustomResourceDefinition) (p : Nat) : Option CustomResourceDefinitionCondition :=
  crd.Status.Conditions[p]?

/-- The invariant of the data model: at most one condition per `Type` in a
condition list. -/
def AtMostOnePerType (conditions : List CustomResourceDefinitionCondition) : Prop :=
  (conditions.map (fun c => c.Type_)).Nodup

instance (conditions : List CustomResourceDefinitionCondition) :
    Decidable (AtMostOnePerType conditions) := by
  unfold AtMostOnePerType; infer_instance

/-- The condition `FindCRDCondition` points at, or `none` for nil: the `find`
of the spec read as a value. -/
def findCondition (crd : CustomResourceDefinition)
    (conditionType : CustomResourceDefinitionConditionType) :
    Option CustomResourceDefinitionCondition :=
  (FindCRDCondition crd conditionType).bind (deref crd)

/-! ## The establishment poller

`ensureCRD` and `EnsureCRDs` are exercised by `utils_test.go`, their bodies are
not among the files at hand. The definitions of this section follow section 4.2
of the specification and take the two error texts from the expectations of the
tests. -/

/-- Modelled from the spec: the condition type constant `Established`. -/
def Established : CustomResourceDefinitionConditionType := "Established"

/-- Modelled from the spec: the condition type constant `NamesAccepted`. -/
def NamesAccepted : CustomResourceDefinitionConditionType := "NamesAccepted"

/-- Modelled from the spec: the configuration surface of the poller, the
package variables `retries`, `interval` and `factor` the tests overwrite
(`maxAttempts`, `initialInterval`, `backoffFactor` in the spec). Durations and
the factor are natural numbers of some time unit. -/
structure Backoff where
  retries : Nat
  interval : Nat
  factor : Nat
  deriving DecidableEq, Repr

/-- Modelled from the spec: the store collaborator `get(name)`, missing from
the files at hand. The first argument is the number of fetches the polling call
made before this one, so that the snapshot may differ from poll to poll. The
spec leaves the handling of a failed fetch to the implementer; the model covers
the fetches that return a snapshot. -/
abbrev StoreClient := Nat → String → CustomResourceDefinition

/-- Modelled from the spec: what one run of the single-object protocol did,
missing from the files at hand: the error it returned (`none` for success), the
number of fetches it made and the intervals it slept, in order. -/
structure PollRun where
  err : Option String
  fetches : Nat
  sleeps : List Nat
  deriving DecidableEq, Repr

/-- Modelled from the spec: the text of the `EstablishmentTimeout` error,
worded as the tests expect it. -/
def timeoutMessage (name : String) : String :=
  "CustomResourceDefinition " ++ name ++
    " was not established within a reasonable amount of time."

/-- Modelled from the spec: the text of the `PermanentConflict` error, worded
as the tests expect it. -/
def conflictMessage (reason name : String) : String :=
  "Due to the naming conflict " ++ reason ++ ", the CustomResourceDefinition " ++ name ++
    " will never become established"

/-- Modelled from the spec: the polling loop of `ensureCRD`, missing from the
files at hand. `remaining` is the attempt budget left, `fetched` the number of
fetches made so far, `interval` the current backoff interval, `sleeps` the
intervals slept so far. With no budget left the run times out. Otherwise the
snapshot is fetched by name: `Established` present and `True` is success;
else `NamesAccepted` present and `False` is the permanent conflict, returned at
once; else one attempt is consumed, the interval is slept and multiplied by the
factor, and the loop goes on. -/
def pollLoop (backoff : Backoff) (client : StoreClient) (name : String) :
    Nat → Nat → Nat → List Nat → PollRun
  | 0, fetched, _, sleeps =>
    { err := some (timeoutMessage name), fetches := fetched, sleeps := sleeps }
  | remaining + 1, fetched, interval, sleeps =>
    let snapshot := client fetched name
    if IsCRDConditionTrue snapshot Established then
      { err := none, fetches := fetched + 1, sleeps := sleeps }
    else
      match findCondition snapshot NamesAccepted with
      | some condition =>
        if condition.Status = ConditionFalse then
          { err := some (conflictMessage condition.Reason name),
            fetches := fetched + 1, sleeps := sleeps }
        else
          pollLoop backoff client name remaining (fetched + 1) (interval * backoff.factor)
            (sleeps ++ [interval])
      | none =>
        pollLoop backoff client name remaining (fetched + 1) (interval * backoff.factor)
          (sleeps ++ [interval])

/-- Modelled from the spec: the run of `ensureCRD` (`ensureEstablished`),
missing from the files at hand: the polling loop with the whole attempt budget
and the initial interval, for the object named as the definition. -/
def ensureCRDRun (backoff : Backoff) (client : StoreClient)
    (crd : CustomResourceDefinition) : PollRun :=
  pollLoop backoff client crd.Name backoff.retries 0 backoff.interval []

/-- Modelled from the spec: `ensureCRD` (`ensureEstablished`), missing from
the files at hand: the error of the run, `none` for success. -/
def ensureCRD (backoff : Backoff) (client : StoreClient)
    (crd : CustomResourceDefinition) : Option String :=
  (ensureCRDRun backoff client crd).err

/-- Modelled from the spec: the aggregate failure (`utilerrors.Aggregate`),
missing from the files at hand: the wrapped messages in order. -/
structure Aggregate where
  errors : List String
  deriving DecidableEq, Repr

/-- Modelled from the spec: the rendering of an aggregate failure, each wrapped
message on a line of its own. -/
def Aggregate.Error (agg : Aggregate) : String :=
  String.intercalate "\n" agg.errors

/-- Modelled from the spec: the failures of a batch, missing from the files at
hand: the single-object protocol is run for every definition, and every
non-success outcome is collected with the name of its object. -/
def collectFailures (backoff : Backoff) (client : StoreClient)
    (crds : List CustomResourceDefinition) : List (String × String) :=
  crds.filterMap (fun crd => (ensureCRD backoff client crd).map (fun e => (crd.Name, e)))

/-- Modelled from the spec: the ascending order of object names, the
lexicographic order of their characters. -/
def nameLE (a b : String) : Prop := a.toList ≤ b.toList

instance : DecidableRel nameLE := fun a b =>
  inferInstanceAs (Decidable (a.toList ≤ b.toList))

/-- Modelled from the spec: `EnsureCRDs` (`ensureEstablishedAll`), missing
from the files at hand: no error when nothing failed, otherwise one aggregate
of the collected messages ordered by object name, ascending. -/
def EnsureCRDs (backoff : Backoff) (client : StoreClient)
    (crds : List CustomResourceDefinition) : Option Aggregate :=
  match (collectFailures backoff client crds).insertionSort (fun a b => nameLE a.1 b.1) with
  | [] => none
  | first :: others => some { errors := (first :: others).map (fun a => a.2) }

/-- The error the single-object protocol returns for the object of a given
name: `ensureCRD` reads nothing but the name of the definition. -/
def errorOfName (backoff : Backoff) (client : StoreClient) (name : String) : Option String :=
  (pollLoop backoff client name backoff.retries 0 backoff.interval []).err

/-! ## Sample objects, taken from the fixtures of `utils_test.go` -/

/-- The fixture `establishedCondition` of the tests. -/
def establishedCondition : CustomResourceDefinitionCondition :=
  { Type_ := "Established", Status := ConditionTrue, LastTransitionTime := 0,
    Reason := "InitialNamesAccepted", Message := "the initial names have been accepted" }

/-- The fixture `notEstablishedCondition` of the tests. -/
def notEstablishedCondition : CustomResourceDefinitionCondition :=
  { Type_ := "Established", Status := ConditionFalse, LastTransitionTime := 0,
    Reason := "NotAccepted", Message := "not all names are accepted" }

/-- The fixture `acceptedCondition` of the tests. -/
def acceptedCondition : CustomResourceDefinitionCondition :=
  { Type_ := "NamesAccepted", Status := ConditionTrue, LastTransitionTime := 0,
    Reason := "NoConflicts", Message := "no conflicts found" }

/-- The fixture `notAcceptedCondition` of the tests. -/
def notAcceptedCondition : CustomResourceDefinitionCondition :=
  { Type_ := "NamesAccepted", Status := ConditionFalse, LastTransitionTime := 0,
    Reason := "TestConflict", Message := "conflicts found" }

/-- An object of the given name with the given conditions and finalizers. -/
def newCRD (name : String) (conditions : List CustomResourceDefinitionCondition)
    (finalizers : List String) : CustomResourceDefinition :=
  { Name := name, Finalizers := finalizers, Status := { Conditions := conditions } }

/-- An object that carries `Established` twice: first `False`, then `True`. -/
def crdFalseThenTrue : CustomResourceDefinition :=
  newCRD "foos.bar.io" [notEstablishedCondition, establishedCondition] []

/-- An object that carries `Established` twice: first `True`, then `False`. -/
def crdTrueThenFalse : CustomResourceDefinition :=
  newCRD "foos.bar.io" [establishedCondition, notEstablishedCondition] []

/-- A new `Established = True` condition with its own transition time, reason
and message. -/
def freshEstablished : CustomResourceDefinitionCondition :=
  { Type_ := "Established", Status := ConditionTrue, LastTransitionTime := 9,
    Reason := "Fresh", Message := "fresh" }

/-- The fake store of the tests: every fetch returns the object as it was
submitted, found by name among `objects`; an unknown name gives an object
without conditions. -/
def fakeClient (objects : List CustomResourceDefinition) : StoreClient :=
  fun _ name =>
    match objects.find? (fun o => decide (o.Name = name)) with
    | some o => o
    | none => { Name := name, Finalizers := [], Status := { Conditions := [] } }

/-- The settings of the tests: one attempt, interval 1, factor 1. -/
def testBackoff : Backoff := { retries := 1, interval := 1, factor := 1 }

/-- The settings used to watch the backoff: three attempts, interval 1,
factor 2. -/
def threeAttempts : Backoff := { retries := 3, interval := 1, factor := 2 }

/-- The definition `foos.bar.io` of the tests, without conditions. -/
def foos : CustomResourceDefinition := newCRD "foos.bar.io" [] []

/-- The definition `bars.foo.io` of the tests, without conditions. -/
def bars : CustomResourceDefinition := newCRD "bars.foo.io" [] []

/-- The definition of the test case "will never be established". -/
def foosConflict : CustomResourceDefinition :=
  newCRD "foos.bar.io" [notAcceptedCondition, notEstablishedCondition] []

/-- The definition of the test case "established". -/
def foosEstablished : CustomResourceDefinition :=
  newCRD "foos.bar.io" [establishedCondition] []

/-! ## Lemmas about the loops -/

theorem findFrom_eq_none (t : CustomResourceDefinitionConditionType)
    (l : List CustomResourceDefinitionCondition) (i : Nat) :
    findFrom t l i = none ↔ ∀ c ∈ l, c.Type_ ≠ t := by
  induction l generalizing i with
  | nil => simp [findFrom]
  | cons a l ih =>
    by_cases h : a.Type_ = t
    · simp [findFrom, h]
    · simp [findFrom, h, ih]

theorem findFrom_eq_some (t : CustomResourceDefinitionConditionType)
    (l : List CustomResourceDefinitionCondition) (i p : Nat) :
    findFrom t l i = some p ↔
      ∃ k, p = i + k ∧ (∃ c, l[k]? = some c ∧ c.Type_ = t) ∧
        ∀ j, j < k → ∀ c, l[j]? = some c → c.Type_ ≠ t := by
  induction l generalizing i with
  | nil => simp [findFrom]
  | cons a l ih =>
    by_cases h : a.Type_ = t
    · simp only [findFrom, h, if_true, Option.some.injEq]
      constructor
      · intro hp
        exact ⟨0, by omega, ⟨a, by simp, h⟩, fun j hj => absurd hj (Nat.not_lt_zero j)⟩
      · rintro ⟨k, hk, -, hlt⟩
        cases k with
        | zero => omega
        | succ k => exact absurd h (hlt 0 (Nat.succ_pos k) a (by simp))
    · simp only [findFrom, h, if_false, ih]
      constructor
      · rintro ⟨k, hk, ⟨c, hc, hct⟩, hlt⟩
        refine ⟨k + 1, by omega, ⟨c, by simpa using hc, hct⟩, ?_⟩
        intro j hj c' hc'
        cases j with
        | zero =>
          simp only [List.getElem?_cons_zero, Option.some.injEq] at hc'
          subst hc'; exact h
        | succ j => exact hlt j (by omega) c' (by simpa using hc')
      · rintro ⟨k, hk, ⟨c, hc, hct⟩, hlt⟩
        cases k with
        | zero =>
          simp only [List.getElem?_cons_zero, Option.some.injEq] at hc
          subst hc; exact absurd hct h
        | succ k =>
          refine ⟨k, by omega, ⟨c, by simpa using hc, hct⟩, ?_⟩
          intro j hj c' hc'
          exact hlt (j + 1) (by omega) c' (by simpa using hc')

theorem storeAt_length (f : CustomResourceDefinitionCondition → CustomResourceDefinitionCondition)
    (l : List CustomResourceDefinitionCondition) (p : Nat) :
    (storeAt f l p).length = l.length := by
  induction l generalizing p with
  | nil => simp [storeAt]
  | cons a l ih => cases p <;> simp [storeAt, ih]

theorem storeAt_getElem? (f : CustomResourceDefinitionCondition → CustomResourceDefinitionCondition)
    (l : List CustomResourceDefinitionCondition) (p q : Nat) :
    (storeAt f l p)[q]? = if q = p then (l[q]?).map f else l[q]? := by
  induction l generalizing p q with
  | nil => simp [storeAt]
  | cons a l ih =>
    cases p with
    | zero => cases q <;> simp [storeAt]
    | succ p => cases q <;> simp [storeAt, ih]

theorem storeAt_map_type (f : CustomResourceDefinitionCondition → CustomResourceDefinitionCondition)
    (hf : ∀ c, (f c).Type_ = c.Type_) (l : List CustomResourceDefinitionCondition) (p : Nat) :
    (storeAt f l p).map (fun c => c.Type_) = l.map (fun c => c.Type_) := by
  induction l generalizing p with
  | nil => simp [storeAt]
  | cons a l ih => cases p <;> simp [storeAt, ih, hf]

theorem overwrite_type (n e : CustomResourceDefinitionCondition) :
    (overwrite n e).Type_ = e.Type_ := by
  unfold overwrite
  split <;> rfl

theorem removeLoop_eq (t : CustomResourceDefinitionConditionType)
    (acc l : List CustomResourceDefinitionCondition) :
    removeLoop t acc l = acc ++ l.filter (fun c => decide (c.Type_ ≠ t)) := by
  induction l generalizing acc with
  | nil => simp [removeLoop]
  | cons a l ih =>
    by_cases h : a.Type_ = t
    · simp [removeLoop, h, ih]
    · simp [removeLoop, h, ih]

theorem removeFinalizerLoop_eq (needle : String) (acc l : List String) :
    removeFinalizerLoop needle acc l = acc ++ l.filter (fun f => decide (f ≠ needle)) := by
  induction l generalizing acc with
  | nil => simp [removeFinalizerLoop]
  | cons a l ih =>
    by_cases h : a = needle
    · simp [removeFinalizerLoop, h, ih]
    · simp [removeFinalizerLoop, h, ih]

theorem presentAndEqualLoop_eq (t : CustomResourceDefinitionConditionType) (s : ConditionStatus)
    (l : List CustomResourceDefinitionCondition) (i : Nat) :
    presentAndEqualLoop t s l = true ↔
      ∃ p c, findFrom t l i = some p ∧ l[p - i]? = some c ∧ c.Status = s := by
  induction l generalizing i with
  | nil => simp [presentAndEqualLoop, findFrom]
  | cons a l ih =>
    by_cases h : a.Type_ = t
    · simp [presentAndEqualLoop, findFrom, h]
    · simp only [presentAndEqualLoop, findFrom, h, if_false, ih (i + 1)]
      constructor
      · rintro ⟨p, c, hp, hc, hs⟩
        have hge : i + 1 ≤ p := by
          rcases (findFrom_eq_some t l (i + 1) p).1 hp with ⟨k, hk, -⟩
          omega
        refine ⟨p, c, hp, ?_, hs⟩
        have : p - i = (p - (i + 1)) + 1 := by omega
        rw [this]; simpa using hc
      · rintro ⟨p, c, hp, hc, hs⟩
        have hge : i + 1 ≤ p := by
          rcases (findFrom_eq_some t l (i + 1) p).1 hp with ⟨k, hk, -⟩
          omega
        refine ⟨p, c, hp, ?_, hs⟩
        have : p - i = (p - (i + 1)) + 1 := by omega
        rw [this] at hc; simpa using hc

theorem findFrom_append_of_absent (t : CustomResourceDefinitionConditionType)
    (l l2 : List CustomResourceDefinitionCondition) (i : Nat)
    (h : ∀ c ∈ l, c.Type_ ≠ t) :
    findFrom t (l ++ l2) i = findFrom t l2 (i + l.length) := by
  induction l generalizing i with
  | nil => simp
  | cons a l ih =>
    have ha : a.Type_ ≠ t := h a (by simp)
    have hl : ∀ c ∈ l, c.Type_ ≠ t := fun c hc => h c (by simp [hc])
    have hidx : i + 1 + l.length = i + (l.length + 1) := by omega
    show findFrom t (a :: (l ++ l2)) i = findFrom t l2 (i + (a :: l).length)
    simp only [findFrom, ha, if_false, ih (i + 1) hl, List.length_cons, hidx]

theorem findFrom_storeAt (t : CustomResourceDefinitionConditionType)
    (f : CustomResourceDefinitionCondition → CustomResourceDefinitionCondition)
    (hf : ∀ c, (f c).Type_ = c.Type_) (l : List CustomResourceDefinitionCondition) (p i : Nat) :
    findFrom t (storeAt f l p) i = findFrom t l i := by
  induction l generalizing p i with
  | nil => simp [storeAt]
  | cons a l ih => cases p <;> simp [storeAt, findFrom, ih, hf]

theorem set_conditions_of_absent (crd : CustomResourceDefinition)
    (n : CustomResourceDefinitionCondition) (now : Time)
    (h : FindCRDCondition crd n.Type_ = none) :
    (SetCRDCondition crd n now).Status.Conditions =
      crd.Status.Conditions ++ [{ n with LastTransitionTime := now }] := by
  simp [SetCRDCondition, h]

theorem set_conditions_of_found (crd : CustomResourceDefinition)
    (n : CustomResourceDefinitionCondition) (now : Time) (p : Nat)
    (h : FindCRDCondition crd n.Type_ = some p) :
    (SetCRDCondition crd n now).Status.Conditions =
      storeAt (overwrite n) crd.Status.Conditions p := by
  simp [SetCRDCondition, h]

theorem overwrite_same_status (n e : CustomResourceDefinitionCondition)
    (h : e.Status = n.Status) :
    overwrite n e = { e with Reason := n.Reason, Message := n.Message } := by
  simp [overwrite, h]

theorem overwrite_other_status (n e : CustomResourceDefinitionCondition)
    (h : e.Status ≠ n.Status) :
    overwrite n e =
      { e with Status := n.Status, LastTransitionTime := n.LastTransitionTime,
               Reason := n.Reason, Message := n.Message } := by
  simp [overwrite, h]

/-- After `SetCRDCondition` a condition of the new condition's type is found,
and it carries the new status, reason and message. -/
theorem find_after_set (crd : CustomResourceDefinition)
    (n : CustomResourceDefinitionCondition) (now : Time) :
    ∃ q c, FindCRDCondition (SetCRDCondition crd n now) n.Type_ = some q ∧
      deref (SetCRDCondition crd n now) q = some c ∧
      c.Type_ = n.Type_ ∧ c.Status = n.Status ∧ c.Reason = n.Reason ∧ c.Message = n.Message := by
  cases hfind : FindCRDCondition crd n.Type_ with
  | none =>
    have habs := (findFrom_eq_none _ _ _).1 hfind
    refine ⟨crd.Status.Conditions.length, { n with LastTransitionTime := now }, ?_, ?_, rfl, rfl,
      rfl, rfl⟩
    · unfold FindCRDCondition
      rw [set_conditions_of_absent crd n now hfind, findFrom_append_of_absent _ _ _ _ habs]
      simp [findFrom]
    · unfold deref
      rw [set_conditions_of_absent crd n now hfind]
      simp
  | some p =>
    rcases (findFrom_eq_some _ _ _ _).1 hfind with ⟨k, hk, ⟨c, hc, hct⟩, -⟩
    have hpk : p = k := by omega
    subst hpk
    refine ⟨p, overwrite n c, ?_, ?_, ?_, ?_, ?_, ?_⟩
    · unfold FindCRDCondition
      rw [set_conditions_of_found crd n now p hfind,
        findFrom_storeAt _ _ (overwrite_type n)]
      exact hfind
    · unfold deref
      rw [set_conditions_of_found crd n now p hfind, storeAt_getElem?]
      simp [hc]
    · rw [overwrite_type]; exact hct
    · by_cases hs : c.Status = n.Status
      · rw [overwrite_same_status n c hs]; exact hs
      · rw [overwrite_other_status n c hs]
    · rfl
    · rfl

/-! ## The claims -/

/-- C1: when the condition list of the object holds no condition of the new
condition's type, `SetCRDCondition` leaves the old list followed by exactly one
new element: the new condition with its `LastTransitionTime` replaced by the
current time, whatever transition time the caller supplied. -/
theorem SetCRDCondition_appends_when_absent (crd : CustomResourceDefinition)
    (newCondition : CustomResourceDefinitionCondition) (now : Time)
    (habsent : ∀ c ∈ crd.Status.Conditions, c.Type_ ≠ newCondition.Type_) :
    (SetCRDCondition crd newCondition now).Status.Conditions =
      crd.Status.Conditions ++ [{ newCondition with LastTransitionTime := now }] :=
  set_conditions_of_absent crd newCondition now ((findFrom_eq_none _ _ _).2 habsent)

/-- C1 at a concrete input: an object holding only `NamesAccepted` receives
`Established` with caller time 9 at clock reading 42; the appended condition is
stamped 42. -/
theorem SetCRDCondition_appends_when_absent_witness :
    (∀ c ∈ (newCRD "foos.bar.io" [acceptedCondition] []).Status.Conditions,
        c.Type_ ≠ freshEstablished.Type_) ∧
    (SetCRDCondition (newCRD "foos.bar.io" [acceptedCondition] []) freshEstablished 42).Status.Conditions
      = (newCRD "foos.bar.io" [acceptedCondition] []).Status.Conditions ++
          [{ freshEstablished with LastTransitionTime := 42 }] :=
  ⟨by decide,
   SetCRDCondition_appends_when_absent (newCRD "foos.bar.io" [acceptedCondition] [])
     freshEstablished 42 (by decide)⟩

/-- C2 as stated fails on an object holding `Established` twice, first `False`
then `True`, when `Established = True` is set. The list holds a condition of
the new type with the new status (the second element). After the call that
stored condition is untouched, so its reason and message are not the new ones;
and the condition the call did find and overwrite (the first element) has
changed both its status and its transition time. -/
theorem SetCRDCondition_same_status_counterexample :
    (crdFalseThenTrue.Status.Conditions[1]? = some establishedCondition ∧
      establishedCondition.Type_ = freshEstablished.Type_ ∧
      establishedCondition.Status = freshEstablished.Status) ∧
    (SetCRDCondition crdFalseThenTrue freshEstablished 42).Status.Conditions =
      [freshEstablished, establishedCondition] ∧
    ¬ (∃ c, (SetCRDCondition crdFalseThenTrue freshEstablished 42).Status.Conditions[1]? = some c ∧
        c.Status = establishedCondition.Status ∧
        c.LastTransitionTime = establishedCondition.LastTransitionTime ∧
        c.Reason = freshEstablished.Reason ∧ c.Message = freshEstablished.Message) ∧
    (FindCRDCondition crdFalseThenTrue freshEstablished.Type_ = some 0 ∧
      crdFalseThenTrue.Status.Conditions[0]? = some notEstablishedCondition ∧
      ¬ (∃ c, (SetCRDCondition crdFalseThenTrue freshEstablished 42).Status.Conditions[0]? = some c ∧
          c.Status = notEstablishedCondition.Status ∧
          c.LastTransitionTime = notEstablishedCondition.LastTransitionTime)) := by
  refine ⟨⟨rfl, rfl, rfl⟩, rfl, ?_, rfl, rfl, ?_⟩
  · rintro ⟨c, hc, -, -, hr, -⟩
    have hc1 : some establishedCondition = some c := hc
    cases hc1
    revert hr; decide
  · rintro ⟨c, hc, hs, -⟩
    have hc1 : some freshEstablished = some c := hc
    cases hc1
    revert hs; decide

/-- C2, amended: when the first condition of the new condition's type (the one
`FindCRDCondition` returns) has the new condition's status, `SetCRDCondition`
leaves its `Status` and `LastTransitionTime`, sets its `Reason` and `Message`
to the new ones, and changes nothing else in the list. In particular, for every
object, a second `SetCRDCondition` with the same type and status keeps the
`LastTransitionTime` the first call left and ends with the second call's
`Reason` and `Message`. -/
theorem SetCRDCondition_same_status (crd : CustomResourceDefinition)
    (newCondition : CustomResourceDefinitionCondition) (now : Time) :
    (∀ p c, FindCRDCondition crd newCondition.Type_ = some p → deref crd p = some c →
        c.Status = newCondition.Status →
        deref (SetCRDCondition crd newCondition now) p =
            some { c with Reason := newCondition.Reason, Message := newCondition.Message } ∧
          (SetCRDCondition crd newCondition now).Status.Conditions.length =
            crd.Status.Conditions.length ∧
          ∀ q, q ≠ p → deref (SetCRDCondition crd newCondition now) q = deref crd q) ∧
    (∀ (second : CustomResourceDefinitionCondition) (now2 : Time),
        second.Type_ = newCondition.Type_ → second.Status = newCondition.Status →
        ∃ q c1, FindCRDCondition (SetCRDCondition crd newCondition now) newCondition.Type_ = some q ∧
          deref (SetCRDCondition crd newCondition now) q = some c1 ∧
          FindCRDCondition (SetCRDCondition (SetCRDCondition crd newCondition now) second now2)
            newCondition.Type_ = some q ∧
          deref (SetCRDCondition (SetCRDCondition crd newCondition now) second now2) q =
            some { c1 with Reason := second.Reason, Message := second.Message }) := by
  have first : ∀ (crd : CustomResourceDefinition) (n : CustomResourceDefinitionCondition)
      (now : Time) (p : Nat) (c : CustomResourceDefinitionCondition),
      FindCRDCondition crd n.Type_ = some p → deref crd p = some c → c.Status = n.Status →
      deref (SetCRDCondition crd n now) p = some { c with Reason := n.Reason, Message := n.Message } ∧
        (SetCRDCondition crd n now).Status.Conditions.length = crd.Status.Conditions.length ∧
        ∀ q, q ≠ p → deref (SetCRDCondition crd n now) q = deref crd q := by
    intro crd n now p c hfind hc hs
    unfold deref at hc ⊢
    rw [set_conditions_of_found crd n now p hfind]
    refine ⟨?_, storeAt_length _ _ _, ?_⟩
    · rw [storeAt_getElem?, if_pos rfl, hc, Option.map_some', overwrite_same_status n c hs]
    · intro q hq
      rw [storeAt_getElem?, if_neg hq]
  refine ⟨fun p c => first crd newCondition now p c, ?_⟩
  intro second now2 hty hst
  obtain ⟨q, c1, hq, hc1, -, hs1, -, -⟩ := find_after_set crd newCondition now
  have hq2 : FindCRDCondition (SetCRDCondition crd newCondition now) second.Type_ = some q := by
    rw [hty]; exact hq
  refine ⟨q, c1, hq, hc1, ?_, ?_⟩
  · unfold FindCRDCondition
    rw [set_conditions_of_found _ second now2 q hq2, findFrom_storeAt _ _ (overwrite_type second)]
    exact hq
  · exact (first _ second now2 q c1 hq2 hc1 (by rw [hs1, hst])).1

/-- C2 amended, at a concrete input: the object of the test fixture holding
`Established = True` (transition time 0) receives `Established = True` with
caller time 9, reason `Fresh`; the stored condition keeps status and time 0 and
takes the new reason and message. -/
theorem SetCRDCondition_same_status_witness :
    deref (SetCRDCondition (newCRD "foos.bar.io" [acceptedCondition, establishedCondition] [])
        freshEstablished 42) 1 =
      some { establishedCondition with Reason := "Fresh", Message := "fresh" } :=
  ((SetCRDCondition_same_status (newCRD "foos.bar.io" [acceptedCondition, establishedCondition] [])
      freshEstablished 42).1 1 establishedCondition (by decide) (by decide) (by decide)).1

/-- C3 as stated fails on an object holding `Established` twice, first `True`
then `False`, when `Established = True` is set. The list holds a condition of
the new type with a different status (the second element), and it is the first
such. After the call it still has status `False`; and the first condition of
the type, which the call did find, keeps its old transition time 0 instead of
the caller's 9. -/
theorem SetCRDCondition_other_status_counterexample :
    (crdTrueThenFalse.Status.Conditions[1]? = some notEstablishedCondition ∧
      notEstablishedCondition.Type_ = freshEstablished.Type_ ∧
      notEstablishedCondition.Status ≠ freshEstablished.Status ∧
      crdTrueThenFalse.Status.Conditions[0]? = some establishedCondition ∧
      establishedCondition.Status = freshEstablished.Status) ∧
    (SetCRDCondition crdTrueThenFalse freshEstablished 42).Status.Conditions =
      [{ establishedCondition with Reason := "Fresh", Message := "fresh" },
        notEstablishedCondition] ∧
    ¬ (∃ c, (SetCRDCondition crdTrueThenFalse freshEstablished 42).Status.Conditions[1]? = some c ∧
        c.Status = freshEstablished.Status) ∧
    ¬ (∃ c, (SetCRDCondition crdTrueThenFalse freshEstablished 42).Status.Conditions[0]? = some c ∧
        c.LastTransitionTime = freshEstablished.LastTransitionTime) := by
  refine ⟨⟨rfl, rfl, by decide, rfl, rfl⟩, rfl, ?_, ?_⟩
  · rintro ⟨c, hc, hs⟩
    have hc1 : some notEstablishedCondition = some c := hc
    cases hc1
    revert hs; decide
  · rintro ⟨c, hc, ht⟩
    have hc1 : some { establishedCondition with Reason := "Fresh", Message := "fresh" } = some c := hc
    cases hc1
    revert ht; decide

/-- C3, amended: when the first condition of the new condition's type (the one
`FindCRDCondition` returns) has a status different from the new condition's,
`SetCRDCondition` sets that condition's `Status` to the new status, its
`LastTransitionTime` to the caller's `newCondition.LastTransitionTime` (not the
current time), and its `Reason` and `Message` to the new ones, keeps its type,
keeps the length of the list and changes no other element. -/
theorem SetCRDCondition_other_status (crd : CustomResourceDefinition)
    (newCondition : CustomResourceDefinitionCondition) (now : Time) (p : Nat)
    (c : CustomResourceDefinitionCondition)
    (hfind : FindCRDCondition crd newCondition.Type_ = some p) (hc : deref crd p = some c)
    (hstatus : c.Status ≠ newCondition.Status) :
    deref (SetCRDCondition crd newCondition now) p =
        some { Type_ := c.Type_, Status := newCondition.Status,
               LastTransitionTime := newCondition.LastTransitionTime,
               Reason := newCondition.Reason, Message := newCondition.Message } ∧
      (SetCRDCondition crd newCondition now).Status.Conditions.length =
        crd.Status.Conditions.length ∧
      ∀ q, q ≠ p → deref (SetCRDCondition crd newCondition now) q = deref crd q := by
  unfold deref at hc ⊢
  rw [set_conditions_of_found crd newCondition now p hfind]
  refine ⟨?_, storeAt_length _ _ _, ?_⟩
  · rw [storeAt_getElem?, if_pos rfl, hc, Option.map_some',
      overwrite_other_status newCondition c hstatus]
  · intro q hq
    rw [storeAt_getElem?, if_neg hq]

/-- C3 amended, at a concrete input: the object holding `NamesAccepted` and
`Established = False` receives `Established = True` with caller time 9 at clock
reading 42; the stored condition becomes the new one, with time 9. -/
theorem SetCRDCondition_other_status_witness :
    deref (SetCRDCondition (newCRD "foos.bar.io" [acceptedCondition, notEstablishedCondition] [])
        freshEstablished 42) 1 =
      some { Type_ := "Established", Status := "True", LastTransitionTime := 9,
             Reason := "Fresh", Message := "fresh" } :=
  (SetCRDCondition_other_status (newCRD "foos.bar.io" [acceptedCondition, notEstablishedCondition] [])
    freshEstablished 42 1 notEstablishedCondition (by decide) (by decide) (by decide)).1

/-- C4: the invariant "at most one condition per `Type`" is preserved by
`SetCRDCondition` for every new condition and every clock reading, and by
`RemoveCRDCondition` for every type. -/
theorem invariant_preserved (crd : CustomResourceDefinition)
    (newCondition : CustomResourceDefinitionCondition) (now : Time)
    (hinv : AtMostOnePerType crd.Status.Conditions) :
    AtMostOnePerType (SetCRDCondition crd newCondition now).Status.Conditions ∧
      ∀ conditionType, AtMostOnePerType (RemoveCRDCondition crd conditionType).Status.Conditions := by
  constructor
  · cases hfind : FindCRDCondition crd newCondition.Type_ with
    | none =>
      have habs := (findFrom_eq_none _ _ _).1 hfind
      rw [set_conditions_of_absent crd newCondition now hfind]
      unfold AtMostOnePerType at hinv ⊢
      rw [List.map_append, List.nodup_append]
      refine ⟨hinv, by simp, ?_⟩
      intro t ht ht2
      rcases List.mem_map.1 ht with ⟨c, hc, hct⟩
      have ht3 : t = newCondition.Type_ := by simpa using ht2
      exact habs c hc (hct.trans ht3)
    | some p =>
      rw [set_conditions_of_found crd newCondition now p hfind]
      unfold AtMostOnePerType at hinv ⊢
      rw [storeAt_map_type _ (overwrite_type newCondition)]
      exact hinv
  · intro t
    unfold AtMostOnePerType at hinv ⊢
    show ((removeLoop t [] crd.Status.Conditions).map (fun c => c.Type_)).Nodup
    rw [removeLoop_eq, List.nil_append]
    exact List.Nodup.sublist (List.Sublist.map _ (List.filter_sublist _)) hinv

/-- C4 at a concrete input: an object holding `NamesAccepted` and `Established`
once each keeps the invariant after `Established` is set and after either type
is removed. -/
theorem invariant_preserved_witness :
    AtMostOnePerType (newCRD "foos.bar.io" [acceptedCondition, notEstablishedCondition] []).Status.Conditions ∧
    AtMostOnePerType (SetCRDCondition
      (newCRD "foos.bar.io" [acceptedCondition, notEstablishedCondition] [])
      freshEstablished 42).Status.Conditions ∧
    AtMostOnePerType (RemoveCRDCondition
      (newCRD "foos.bar.io" [acceptedCondition, notEstablishedCondition] [])
      "Established").Status.Conditions :=
  ⟨by decide,
   (invariant_preserved (newCRD "foos.bar.io" [acceptedCondition, notEstablishedCondition] [])
      freshEstablished 42 (by decide)).1,
   (invariant_preserved (newCRD "foos.bar.io" [acceptedCondition, notEstablishedCondition] [])
      freshEstablished 42 (by decide)).2 "Established"⟩

/-- C5: `FindCRDCondition` returns the pointer to index `p` exactly when the
condition at `p` has the type asked for and no earlier condition has it, and
returns nil exactly when no condition of the list has that type. -/
theorem FindCRDCondition_first_match (crd : CustomResourceDefinition)
    (conditionType : CustomResourceDefinitionConditionType) :
    (∀ p, FindCRDCondition crd conditionType = some p ↔
        (∃ c, deref crd p = some c ∧ c.Type_ = conditionType) ∧
          ∀ j, j < p → ∀ c, deref crd j = some c → c.Type_ ≠ conditionType) ∧
    (FindCRDCondition crd conditionType = none ↔
        ∀ c ∈ crd.Status.Conditions, c.Type_ ≠ conditionType) := by
  refine ⟨fun p => ?_, findFrom_eq_none _ _ _⟩
  unfold FindCRDCondition deref
  rw [findFrom_eq_some]
  constructor
  · rintro ⟨k, hk, hc, hlt⟩
    have hpk : p = k := by omega
    subst hpk
    exact ⟨hc, hlt⟩
  · rintro ⟨hc, hlt⟩
    exact ⟨p, by omega, hc, hlt⟩

/-- C6: after `RemoveCRDCondition` the condition list is the old list filtered
to the conditions of another type: a subsequence of the old list in the old
order, holding no condition of the removed type and every condition of another
type, each unmodified. -/
theorem RemoveCRDCondition_filter (crd : CustomResourceDefinition)
    (conditionType : CustomResourceDefinitionConditionType) :
    (RemoveCRDCondition crd conditionType).Status.Conditions =
        crd.Status.Conditions.filter (fun c => decide (c.Type_ ≠ conditionType)) ∧
      List.Sublist (RemoveCRDCondition crd conditionType).Status.Conditions crd.Status.Conditions ∧
      (∀ c ∈ (RemoveCRDCondition crd conditionType).Status.Conditions, c.Type_ ≠ conditionType) ∧
      (∀ c ∈ crd.Status.Conditions, c.Type_ ≠ conditionType →
        c ∈ (RemoveCRDCondition crd conditionType).Status.Conditions) := by
  have heq : (RemoveCRDCondition crd conditionType).Status.Conditions =
      crd.Status.Conditions.filter (fun c => decide (c.Type_ ≠ conditionType)) := by
    show removeLoop conditionType [] crd.Status.Conditions = _
    rw [removeLoop_eq, List.nil_append]
  rw [heq]
  refine ⟨rfl, List.filter_sublist _, ?_, ?_⟩
  · intro c hc
    simpa using (List.mem_filter.1 hc).2
  · intro c hc hne
    exact List.mem_filter.2 ⟨hc, by simpa using hne⟩

/-- C7: `RemoveCRDCondition` of a type that no condition of the list has
(the empty list included) leaves the condition list as it was. -/
theorem RemoveCRDCondition_absent (crd : CustomResourceDefinition)
    (conditionType : CustomResourceDefinitionConditionType)
    (habsent : ∀ c ∈ crd.Status.Conditions, c.Type_ ≠ conditionType) :
    (RemoveCRDCondition crd conditionType).Status.Conditions = crd.Status.Conditions := by
  show removeLoop conditionType [] crd.Status.Conditions = _
  rw [removeLoop_eq, List.nil_append, List.filter_eq_self]
  intro c hc
  simpa using habsent c hc

/-- C7 at two concrete inputs: the empty condition list, and a list holding
only `NamesAccepted`, both asked to drop `Established`. -/
theorem RemoveCRDCondition_absent_witness :
    (RemoveCRDCondition (newCRD "foos.bar.io" [] []) "Established").Status.Conditions = [] ∧
    (RemoveCRDCondition (newCRD "foos.bar.io" [acceptedCondition] []) "Established").Status.Conditions
      = [acceptedCondition] :=
  ⟨RemoveCRDCondition_absent (newCRD "foos.bar.io" [] []) "Established" (by decide),
   RemoveCRDCondition_absent (newCRD "foos.bar.io" [acceptedCondition] []) "Established"
     (by decide)⟩

/-- C8: `IsCRDConditionPresentAndEqual` is true exactly when
`FindCRDCondition` returns a condition whose status is the one asked for, for
every condition list (lists holding a type several times included);
`IsCRDConditionTrue` and `IsCRDConditionFalse` are that predicate at the
statuses `True` and `False`. -/
theorem predicates_agree_with_find (crd : CustomResourceDefinition)
    (conditionType : CustomResourceDefinitionConditionType) (status : ConditionStatus) :
    (IsCRDConditionPresentAndEqual crd conditionType status = true ↔
        ∃ p c, FindCRDCondition crd conditionType = some p ∧ deref crd p = some c ∧
          c.Status = status) ∧
      IsCRDConditionTrue crd conditionType =
        IsCRDConditionPresentAndEqual crd conditionType ConditionTrue ∧
      IsCRDConditionFalse crd conditionType =
        IsCRDConditionPresentAndEqual crd conditionType ConditionFalse := by
  refine ⟨?_, rfl, rfl⟩
  unfold IsCRDConditionPresentAndEqual FindCRDCondition deref
  rw [presentAndEqualLoop_eq conditionType status crd.Status.Conditions 0]
  simp

/-- C8 on an object that holds `Established` twice, first `False` then `True`:
the predicates follow the first one, as `FindCRDCondition` does. -/
theorem predicates_agree_with_find_witness :
    FindCRDCondition crdFalseThenTrue "Established" = some 0 ∧
    IsCRDConditionPresentAndEqual crdFalseThenTrue "Established" ConditionFalse = true ∧
    IsCRDConditionTrue crdFalseThenTrue "Established" = false ∧
    IsCRDConditionFalse crdFalseThenTrue "Established" = true :=
  ⟨by decide,
   (predicates_agree_with_find crdFalseThenTrue "Established" ConditionFalse).1.2
     ⟨0, notEstablishedCondition, by decide, by decide, by decide⟩,
   by decide, by decide⟩

/-- C9: `IsCRDConditionEquivalent` is true exactly when both sides are absent,
or both are present with equal `Type`, `Status`, `Reason` and `Message`. So two
conditions that differ only in `LastTransitionTime` are equivalent, a
difference in any of the four compared fields makes them non-equivalent, and an
absent condition is never equivalent to a present one. -/
theorem IsCRDConditionEquivalent_iff (lhs rhs : Option CustomResourceDefinitionCondition) :
    (IsCRDConditionEquivalent lhs rhs = true ↔
        (lhs = none ∧ rhs = none) ∨
          ∃ x y, lhs = some x ∧ rhs = some y ∧ x.Type_ = y.Type_ ∧ x.Status = y.Status ∧
            x.Reason = y.Reason ∧ x.Message = y.Message) ∧
      (∀ (x : CustomResourceDefinitionCondition) (t : Time),
        IsCRDConditionEquivalent (some x) (some { x with LastTransitionTime := t }) = true) ∧
      (∀ x y : CustomResourceDefinitionCondition,
        x.Type_ ≠ y.Type_ ∨ x.Status ≠ y.Status ∨ x.Reason ≠ y.Reason ∨ x.Message ≠ y.Message →
          IsCRDConditionEquivalent (some x) (some y) = false) ∧
      (∀ x : CustomResourceDefinitionCondition,
        IsCRDConditionEquivalent none (some x) = false ∧
          IsCRDConditionEquivalent (some x) none = false) := by
  refine ⟨?_, ?_, ?_, fun x => ⟨rfl, rfl⟩⟩
  · cases lhs with
    | none => cases rhs <;> simp [IsCRDConditionEquivalent]
    | some x =>
      cases rhs with
      | none => simp [IsCRDConditionEquivalent]
      | some y =>
        simp only [IsCRDConditionEquivalent, Bool.and_eq_true, decide_eq_true_eq]
        constructor
        · rintro ⟨⟨⟨hm, hr⟩, hs⟩, ht⟩
          exact Or.inr ⟨x, y, rfl, rfl, ht, hs, hr, hm⟩
        · rintro (⟨h, -⟩ | ⟨x1, y1, hx, hy, ht, hs, hr, hm⟩)
          · cases h
          · cases hx; cases hy
            exact ⟨⟨⟨hm, hr⟩, hs⟩, ht⟩
  · intro x t
    simp [IsCRDConditionEquivalent]
  · intro x y h
    cases hb : IsCRDConditionEquivalent (some x) (some y) with
    | false => rfl
    | true =>
      simp only [IsCRDConditionEquivalent, Bool.and_eq_true, decide_eq_true_eq] at hb
      obtain ⟨⟨⟨hm, hr⟩, hs⟩, ht⟩ := hb
      rcases h with h | h | h | h
      · exact absurd ht h
      · exact absurd hs h
      · exact absurd hr h
      · exact absurd hm h

/-- C10: after `CRDRemoveFinalizer` the finalizer list is the old list
filtered to the entries other than the token: a subsequence of the old list in
the old order without the token; and when the token is not in the list (the
empty list included) the list is as it was. -/
theorem CRDRemoveFinalizer_filter (crd : CustomResourceDefinition) (needle : String) :
    (CRDRemoveFinalizer crd needle).Finalizers =
        crd.Finalizers.filter (fun f => decide (f ≠ needle)) ∧
      List.Sublist (CRDRemoveFinalizer crd needle).Finalizers crd.Finalizers ∧
      needle ∉ (CRDRemoveFinalizer crd needle).Finalizers ∧
      (∀ f ∈ crd.Finalizers, f ≠ needle → f ∈ (CRDRemoveFinalizer crd needle).Finalizers) ∧
      (needle ∉ crd.Finalizers → (CRDRemoveFinalizer crd needle).Finalizers = crd.Finalizers) := by
  have heq : (CRDRemoveFinalizer crd needle).Finalizers =
      crd.Finalizers.filter (fun f => decide (f ≠ needle)) := by
    show removeFinalizerLoop needle [] crd.Finalizers = _
    rw [removeFinalizerLoop_eq, List.nil_append]
  rw [heq]
  refine ⟨rfl, List.filter_sublist _, ?_, ?_, ?_⟩
  · intro hmem
    have := (List.mem_filter.1 hmem).2
    simp at this
  · intro f hf hne
    exact List.mem_filter.2 ⟨hf, by simpa using hne⟩
  · intro hnot
    rw [List.filter_eq_self]
    intro f hf
    have hne : f ≠ needle := fun h => hnot (h ▸ hf)
    simpa using hne

/-- C10 at concrete inputs: every occurrence of a repeated token goes and the
rest keeps its order; an absent token and an empty list change nothing. -/
theorem CRDRemoveFinalizer_filter_witness :
    (CRDRemoveFinalizer (newCRD "foos.bar.io" [] ["a", "b", "a", "c"]) "a").Finalizers = ["b", "c"] ∧
    (CRDRemoveFinalizer (newCRD "foos.bar.io" [] ["a", "b"]) "z").Finalizers = ["a", "b"] ∧
    (CRDRemoveFinalizer (newCRD "foos.bar.io" [] []) "z").Finalizers = [] :=
  ⟨(CRDRemoveFinalizer_filter (newCRD "foos.bar.io" [] ["a", "b", "a", "c"]) "a").1,
   (CRDRemoveFinalizer_filter (newCRD "foos.bar.io" [] ["a", "b"]) "z").2.2.2.2 (by decide),
   (CRDRemoveFinalizer_filter (newCRD "foos.bar.io" [] []) "z").2.2.2.2 (by decide)⟩

/-! ## Further lemmas about the loops -/

theorem hasFinalizerLoop_eq_true (needle : String) (l : List String) :
    hasFinalizerLoop needle l = true ↔ needle ∈ l := by
  induction l with
  | nil => simp [hasFinalizerLoop]
  | cons a l ih =>
    by_cases h : a = needle
    · simp [hasFinalizerLoop, h]
    · have h2 : ¬ needle = a := fun e => h e.symm
      simp [hasFinalizerLoop, h, h2, ih]

theorem findFrom_bind_getElem? (t : CustomResourceDefinitionConditionType)
    (l : List CustomResourceDefinitionCondition) (i : Nat) :
    (findFrom t l i).bind (fun p => l[p - i]?) = l.find? (fun c => decide (c.Type_ = t)) := by
  induction l generalizing i with
  | nil => simp [findFrom]
  | cons a l ih =>
    by_cases h : a.Type_ = t
    · simp [findFrom, h]
    · have hih := ih (i + 1)
      simp only [findFrom, h, if_false, List.find?_cons, decide_False]
      rw [← hih]
      cases hf : findFrom t l (i + 1) with
      | none => rfl
      | some p =>
        have hge : i + 1 ≤ p := by
          rcases (findFrom_eq_some t l (i + 1) p).1 hf with ⟨k, hk, -⟩
          omega
        have hidx : p - i = (p - (i + 1)) + 1 := by omega
        simp only [Option.some_bind, hidx, List.getElem?_cons_succ]

theorem findCondition_eq_find? (crd : CustomResourceDefinition)
    (t : CustomResourceDefinitionConditionType) :
    findCondition crd t = crd.Status.Conditions.find? (fun c => decide (c.Type_ = t)) := by
  have h := findFrom_bind_getElem? t crd.Status.Conditions 0
  simpa [findCondition, FindCRDCondition, deref] using h

theorem presentAndEqualLoop_eq_find? (t : CustomResourceDefinitionConditionType)
    (s : ConditionStatus) (l : List CustomResourceDefinitionCondition) :
    presentAndEqualLoop t s l =
      match l.find? (fun c => decide (c.Type_ = t)) with
      | some c => decide (c.Status = s)
      | none => false := by
  induction l with
  | nil => simp [presentAndEqualLoop]
  | cons a l ih =>
    by_cases h : a.Type_ = t
    · simp [presentAndEqualLoop, h]
    · simp [presentAndEqualLoop, h, ih]

theorem presentAndEqual_eq_findCondition (crd : CustomResourceDefinition)
    (t : CustomResourceDefinitionConditionType) (s : ConditionStatus) :
    IsCRDConditionPresentAndEqual crd t s =
      match findCondition crd t with
      | some c => decide (c.Status = s)
      | none => false := by
  rw [findCondition_eq_find?]
  exact presentAndEqualLoop_eq_find? t s crd.Status.Conditions

theorem find?_filter_other (t u : CustomResourceDefinitionConditionType) (hne : u ≠ t)
    (l : List CustomResourceDefinitionCondition) :
    (l.filter (fun c => decide (c.Type_ ≠ t))).find? (fun c => decide (c.Type_ = u)) =
      l.find? (fun c => decide (c.Type_ = u)) := by
  induction l with
  | nil => simp
  | cons a l ih =>
    by_cases ht : a.Type_ = t
    · have hu : ¬ a.Type_ = u := fun e => hne (e.symm.trans ht)
      rw [List.filter_cons, if_neg (by simp [ht])]
      simp only [List.find?_cons, hu, decide_False]
      exact ih
    · rw [List.filter_cons, if_pos (by simp [ht])]
      by_cases hu : a.Type_ = u
      · simp only [List.find?_cons, hu, decide_True]
      · simp only [List.find?_cons, hu, decide_False]
        exact ih

theorem storeAt_self (f : CustomResourceDefinitionCondition → CustomResourceDefinitionCondition)
    (l : List CustomResourceDefinitionCondition) (p : Nat) (c : CustomResourceDefinitionCondition)
    (hc : l[p]? = some c) (hf : f c = c) : storeAt f l p = l := by
  induction l generalizing p with
  | nil => simp [storeAt]
  | cons a l ih =>
    cases p with
    | zero =>
      simp only [List.getElem?_cons_zero, Option.some.injEq] at hc
      subst hc
      simp [storeAt, hf]
    | succ p =>
      simp only [List.getElem?_cons_succ] at hc
      simp [storeAt, ih p hc]

theorem getElem?_append_of_some (l l2 : List CustomResourceDefinitionCondition) (q : Nat)
    (c : CustomResourceDefinitionCondition) (hc : l[q]? = some c) : (l ++ l2)[q]? = some c := by
  induction l generalizing q with
  | nil => simp at hc
  | cons a l ih =>
    cases q with
    | zero => simpa using hc
    | succ q =>
      simp only [List.getElem?_cons_succ] at hc
      simpa using ih q hc

theorem getElem?_append_of_lt (l l2 : List CustomResourceDefinitionCondition) (q : Nat)
    (hq : q < l.length) : (l ++ l2)[q]? = l[q]? := by
  induction l generalizing q with
  | nil => simp at hq
  | cons a l ih =>
    cases q with
    | zero => simp
    | succ q =>
      have hq2 : q < l.length := by simpa using hq
      simpa using ih q hq2

/-! ## The claims about the ledger, continued -/

/-- C11: `CRDHasFinalizer` is true exactly when the token occurs in the
finalizer list of the object; on an empty list it is false for every token. -/
theorem CRDHasFinalizer_iff_mem (crd : CustomResourceDefinition) (needle : String) :
    (CRDHasFinalizer crd needle = true ↔ needle ∈ crd.Finalizers) ∧
      (crd.Finalizers = [] → CRDHasFinalizer crd needle = false) := by
  refine ⟨hasFinalizerLoop_eq_true needle crd.Finalizers, ?_⟩
  intro hnil
  unfold CRDHasFinalizer
  rw [hnil]
  rfl

/-- C11 at concrete inputs: a token of the list is found, a token outside it
is not, and nothing is found in the empty list. -/
theorem CRDHasFinalizer_iff_mem_witness :
    CRDHasFinalizer (newCRD "foos.bar.io" [] ["a", "b"]) "b" = true ∧
    CRDHasFinalizer (newCRD "foos.bar.io" [] ["a", "b"]) "z" = false ∧
    CRDHasFinalizer (newCRD "foos.bar.io" [] []) "a" = false :=
  ⟨(CRDHasFinalizer_iff_mem (newCRD "foos.bar.io" [] ["a", "b"]) "b").1.2 (by decide),
   by decide,
   (CRDHasFinalizer_iff_mem (newCRD "foos.bar.io" [] []) "a").2 rfl⟩

/-- C15: after `SetCRDCondition`, for every object (lists holding the type
several times included) and every new condition, `FindCRDCondition` of the new
condition's type returns a condition, and that condition is
`IsCRDConditionEquivalent` to the new one: its `Type`, `Status`, `Reason` and
`Message` are those of the new condition. -/
theorem set_then_find (crd : CustomResourceDefinition)
    (newCondition : CustomResourceDefinitionCondition) (now : Time) :
    ∃ q c, FindCRDCondition (SetCRDCondition crd newCondition now) newCondition.Type_ = some q ∧
      deref (SetCRDCondition crd newCondition now) q = some c ∧
      IsCRDConditionEquivalent (some c) (some newCondition) = true ∧
      c.Type_ = newCondition.Type_ ∧ c.Status = newCondition.Status ∧
      c.Reason = newCondition.Reason ∧ c.Message = newCondition.Message := by
  obtain ⟨q, c, hq, hc, hty, hs, hr, hm⟩ := find_after_set crd newCondition now
  refine ⟨q, c, hq, hc, ?_, hty, hs, hr, hm⟩
  simp [IsCRDConditionEquivalent, hty, hs, hr, hm]

/-- C16: the frame of `SetCRDCondition`. A condition of another type keeps its
position and its content; every condition that was in the list keeps its
position and its `Type`; when the type was absent the list grows by one and
all old positions are unchanged; when the type was found at `p` the length is
unchanged and every position other than `p` is unchanged; the finalizers and
the name of the object are unchanged. -/
theorem SetCRDCondition_frame (crd : CustomResourceDefinition)
    (newCondition : CustomResourceDefinitionCondition) (now : Time) :
    (∀ q c, deref crd q = some c → c.Type_ ≠ newCondition.Type_ →
        deref (SetCRDCondition crd newCondition now) q = some c) ∧
    (∀ q c, deref crd q = some c →
        ∃ c2, deref (SetCRDCondition crd newCondition now) q = some c2 ∧ c2.Type_ = c.Type_) ∧
    (FindCRDCondition crd newCondition.Type_ = none →
        (SetCRDCondition crd newCondition now).Status.Conditions.length =
            crd.Status.Conditions.length + 1 ∧
          ∀ q, q < crd.Status.Conditions.length →
            deref (SetCRDCondition crd newCondition now) q = deref crd q) ∧
    (∀ p, FindCRDCondition crd newCondition.Type_ = some p →
        (SetCRDCondition crd newCondition now).Status.Conditions.length =
            crd.Status.Conditions.length ∧
          ∀ q, q ≠ p → deref (SetCRDCondition crd newCondition now) q = deref crd q) ∧
    (SetCRDCondition crd newCondition now).Finalizers = crd.Finalizers ∧
    (SetCRDCondition crd newCondition now).Name = crd.Name := by
  have hrest : (SetCRDCondition crd newCondition now).Finalizers = crd.Finalizers ∧
      (SetCRDCondition crd newCondition now).Name = crd.Name := by
    unfold SetCRDCondition
    split <;> exact ⟨rfl, rfl⟩
  cases hfind : FindCRDCondition crd newCondition.Type_ with
  | none =>
    have hset := set_conditions_of_absent crd newCondition now hfind
    refine ⟨?_, ?_, ?_, ?_, hrest⟩
    · intro q c hc _
      unfold deref at hc ⊢
      rw [hset]
      exact getElem?_append_of_some _ _ q c hc
    · intro q c hc
      unfold deref at hc ⊢
      rw [hset]
      exact ⟨c, getElem?_append_of_some _ _ q c hc, rfl⟩
    · intro _
      refine ⟨by rw [hset]; simp, ?_⟩
      intro q hq
      unfold deref
      rw [hset]
      exact getElem?_append_of_lt _ _ q hq
    · intro p hp
      cases hp
  | some p =>
    have hset := set_conditions_of_found crd newCondition now p hfind
    rcases (findFrom_eq_some _ _ _ _).1 hfind with ⟨k, hk, ⟨e, he, het⟩, -⟩
    have hpk : p = k := by omega
    subst hpk
    refine ⟨?_, ?_, ?_, ?_, hrest⟩
    · intro q c hc hne
      unfold deref at hc ⊢
      rw [hset, storeAt_getElem?]
      by_cases hqp : q = p
      · subst hqp
        rw [he] at hc
        cases hc
        exact absurd het hne
      · rw [if_neg hqp]; exact hc
    · intro q c hc
      unfold deref at hc ⊢
      rw [hset, storeAt_getElem?]
      by_cases hqp : q = p
      · rw [if_pos hqp, hc]
        exact ⟨overwrite newCondition c, rfl, overwrite_type newCondition c⟩
      · rw [if_neg hqp]
        exact ⟨c, hc, rfl⟩
    · intro h
      cases h
    · intro p2 hp2
      have hpp : p = p2 := by
        have := hp2
        simp only [Option.some.injEq] at this
        exact this
      subst hpp
      refine ⟨by rw [hset]; exact storeAt_length _ _ _, ?_⟩
      intro q hq
      unfold deref
      rw [hset, storeAt_getElem?, if_neg hq]

/-- C17: `SetCRDCondition` is idempotent in its argument: for every object,
every new condition and every two clock readings, a second call with the same
condition leaves the object as the first call left it. -/
theorem SetCRDCondition_idempotent (crd : CustomResourceDefinition)
    (newCondition : CustomResourceDefinitionCondition) (now1 now2 : Time) :
    SetCRDCondition (SetCRDCondition crd newCondition now1) newCondition now2 =
      SetCRDCondition crd newCondition now1 := by
  obtain ⟨q, c, hq, hc, -, hs, hr, hm⟩ := find_after_set crd newCondition now1
  have hsame : overwrite newCondition c = c := by
    rw [overwrite_same_status newCondition c hs, ← hr, ← hm]
  have hc2 : (SetCRDCondition crd newCondition now1).Status.Conditions[q]? = some c := hc
  have hshape : ∀ crd1 : CustomResourceDefinition,
      FindCRDCondition crd1 newCondition.Type_ = some q →
      SetCRDCondition crd1 newCondition now2 =
        { crd1 with
            Status := { Conditions := (storeAt (overwrite newCondition) crd1.Status.Conditions q) } } := by
    intro crd1 h1
    simp [SetCRDCondition, h1]
  rw [hshape _ hq, storeAt_self _ _ q c hc2 hsame]

/-- C18: after `RemoveCRDCondition` of a type, `FindCRDCondition` of that
type returns nil and `IsCRDConditionPresentAndEqual` is false for every status;
for every other type `FindCRDCondition` points at the same condition as before
the removal; and a second removal of the type changes nothing. -/
theorem remove_then_find (crd : CustomResourceDefinition)
    (conditionType : CustomResourceDefinitionConditionType) :
    FindCRDCondition (RemoveCRDCondition crd conditionType) conditionType = none ∧
    (∀ status, IsCRDConditionPresentAndEqual (RemoveCRDCondition crd conditionType)
        conditionType status = false) ∧
    (∀ other, other ≠ conditionType →
        findCondition (RemoveCRDCondition crd conditionType) other = findCondition crd other) ∧
    RemoveCRDCondition (RemoveCRDCondition crd conditionType) conditionType =
      RemoveCRDCondition crd conditionType := by
  have heq : (RemoveCRDCondition crd conditionType).Status.Conditions =
      crd.Status.Conditions.filter (fun c => decide (c.Type_ ≠ conditionType)) := by
    show removeLoop conditionType [] crd.Status.Conditions = _
    rw [removeLoop_eq, List.nil_append]
  have habs : ∀ c ∈ (RemoveCRDCondition crd conditionType).Status.Conditions,
      c.Type_ ≠ conditionType := by
    intro c hc
    rw [heq] at hc
    simpa using (List.mem_filter.1 hc).2
  have hnone : FindCRDCondition (RemoveCRDCondition crd conditionType) conditionType = none :=
    (findFrom_eq_none _ _ _).2 habs
  refine ⟨hnone, ?_, ?_, ?_⟩
  · intro status
    rw [presentAndEqual_eq_findCondition]
    unfold findCondition
    rw [hnone]
    rfl
  · intro other hne
    rw [findCondition_eq_find?, findCondition_eq_find?, heq]
    exact find?_filter_other conditionType other hne crd.Status.Conditions
  · have hagain : removeLoop conditionType [] (RemoveCRDCondition crd conditionType).Status.Conditions
        = (RemoveCRDCondition crd conditionType).Status.Conditions := by
      rw [removeLoop_eq, List.nil_append, List.filter_eq_self]
      intro c hc
      simpa using habs c hc
    show ({ RemoveCRDCondition crd conditionType with
            Status := { Conditions :=
              (removeLoop conditionType [] (RemoveCRDCondition crd conditionType).Status.Conditions) } }
          : CustomResourceDefinition) = RemoveCRDCondition crd conditionType
    rw [hagain]

/-- C18 on the object that holds `Established` twice and `NamesAccepted` once:
after the removal of `Established` it is not found, and `NamesAccepted` is
found with the content it had. -/
theorem remove_then_find_witness :
    FindCRDCondition (RemoveCRDCondition
      (newCRD "foos.bar.io" [notEstablishedCondition, acceptedCondition, establishedCondition] [])
      "Established") "Established" = none ∧
    findCondition (RemoveCRDCondition
      (newCRD "foos.bar.io" [notEstablishedCondition, acceptedCondition, establishedCondition] [])
      "Established") "NamesAccepted" = some acceptedCondition :=
  ⟨(remove_then_find
      (newCRD "foos.bar.io" [notEstablishedCondition, acceptedCondition, establishedCondition] [])
      "Established").1,
   ((remove_then_find
      (newCRD "foos.bar.io" [notEstablishedCondition, acceptedCondition, establishedCondition] [])
      "Established").2.2.1 "NamesAccepted" (by decide)).trans (by decide)⟩

/-- C19: after `CRDRemoveFinalizer` of a token (lists holding it several times
included) `CRDHasFinalizer` of the token is false, `CRDHasFinalizer` of every
other token has the value it had, a duplicate-free finalizer list stays
duplicate-free, and the condition list is unchanged. -/
theorem remove_finalizer_then_has (crd : CustomResourceDefinition) (needle : String) :
    CRDHasFinalizer (CRDRemoveFinalizer crd needle) needle = false ∧
    (∀ other, other ≠ needle →
        CRDHasFinalizer (CRDRemoveFinalizer crd needle) other = CRDHasFinalizer crd other) ∧
    (crd.Finalizers.Nodup → (CRDRemoveFinalizer crd needle).Finalizers.Nodup) ∧
    (CRDRemoveFinalizer crd needle).Status.Conditions = crd.Status.Conditions := by
  have heq : (CRDRemoveFinalizer crd needle).Finalizers =
      crd.Finalizers.filter (fun f => decide (f ≠ needle)) := by
    show removeFinalizerLoop needle [] crd.Finalizers = _
    rw [removeFinalizerLoop_eq, List.nil_append]
  refine ⟨?_, ?_, ?_, rfl⟩
  · cases hb : CRDHasFinalizer (CRDRemoveFinalizer crd needle) needle with
    | false => rfl
    | true =>
      have hmem := (hasFinalizerLoop_eq_true needle _).1 hb
      rw [heq] at hmem
      have := (List.mem_filter.1 hmem).2
      simp at this
  · intro other hne
    have hiff : CRDHasFinalizer (CRDRemoveFinalizer crd needle) other = true ↔
        CRDHasFinalizer crd other = true := by
      unfold CRDHasFinalizer
      rw [hasFinalizerLoop_eq_true, hasFinalizerLoop_eq_true, heq, List.mem_filter]
      constructor
      · exact fun h => h.1
      · exact fun h => ⟨h, by simpa using hne⟩
    exact Bool.eq_iff_iff.2 hiff
  · intro hnodup
    rw [heq]
    exact hnodup.sublist (List.filter_sublist _)

/-- C19 at a concrete input: the token `a` occurs twice; after its removal it
is not found, `b` is still found, and the duplicate-free list `[a, b]` stays
duplicate-free. -/
theorem remove_finalizer_then_has_witness :
    CRDHasFinalizer (CRDRemoveFinalizer (newCRD "foos.bar.io" [] ["a", "b", "a"]) "a") "a" = false ∧
    CRDHasFinalizer (CRDRemoveFinalizer (newCRD "foos.bar.io" [] ["a", "b", "a"]) "a") "b" = true ∧
    (CRDRemoveFinalizer (newCRD "foos.bar.io" [] ["a", "b"]) "a").Finalizers.Nodup :=
  ⟨(remove_finalizer_then_has (newCRD "foos.bar.io" [] ["a", "b", "a"]) "a").1,
   ((remove_finalizer_then_has (newCRD "foos.bar.io" [] ["a", "b", "a"]) "a").2.1 "b"
      (by decide)).trans (by decide),
   (remove_finalizer_then_has (newCRD "foos.bar.io" [] ["a", "b"]) "a").2.2.1 (by decide)⟩

/-- C20: `IsCRDConditionTrue` and `IsCRDConditionFalse` are never both true;
both are false when no condition of the type is present, and both are false
when the first condition of the type has a status other than `True` and
`False`, `Unknown` in particular. -/
theorem true_and_false_exclusive (crd : CustomResourceDefinition)
    (conditionType : CustomResourceDefinitionConditionType) :
    ¬ (IsCRDConditionTrue crd conditionType = true ∧
        IsCRDConditionFalse crd conditionType = true) ∧
    ((∀ c ∈ crd.Status.Conditions, c.Type_ ≠ conditionType) →
        IsCRDConditionTrue crd conditionType = false ∧
          IsCRDConditionFalse crd conditionType = false) ∧
    (∀ c, findCondition crd conditionType = some c →
        c.Status ≠ ConditionTrue → c.Status ≠ ConditionFalse →
        IsCRDConditionTrue crd conditionType = false ∧
          IsCRDConditionFalse crd conditionType = false) ∧
    (∀ c, findCondition crd conditionType = some c → c.Status = ConditionUnknown →
        IsCRDConditionTrue crd conditionType = false ∧
          IsCRDConditionFalse crd conditionType = false) := by
  have hother : ∀ c, findCondition crd conditionType = some c →
      c.Status ≠ ConditionTrue → c.Status ≠ ConditionFalse →
      IsCRDConditionTrue crd conditionType = false ∧
        IsCRDConditionFalse crd conditionType = false := by
    intro c hc ht hf
    unfold IsCRDConditionTrue IsCRDConditionFalse
    rw [presentAndEqual_eq_findCondition, presentAndEqual_eq_findCondition, hc]
    exact ⟨decide_eq_false ht, decide_eq_false hf⟩
  refine ⟨?_, ?_, hother, ?_⟩
  · rintro ⟨ht, hf⟩
    unfold IsCRDConditionTrue at ht
    unfold IsCRDConditionFalse at hf
    rw [presentAndEqual_eq_findCondition] at ht hf
    cases hc : findCondition crd conditionType with
    | none =>
      rw [hc] at ht
      cases ht
    | some c =>
      rw [hc] at ht hf
      have h1 : c.Status = ConditionTrue := of_decide_eq_true ht
      have h2 : c.Status = ConditionFalse := of_decide_eq_true hf
      have h3 : ConditionTrue = ConditionFalse := h1.symm.trans h2
      revert h3
      decide
  · intro habs
    have hnone : findCondition crd conditionType = none := by
      have hfind : FindCRDCondition crd conditionType = none := (findFrom_eq_none _ _ _).2 habs
      unfold findCondition
      rw [hfind]
      rfl
    unfold IsCRDConditionTrue IsCRDConditionFalse
    rw [presentAndEqual_eq_findCondition, presentAndEqual_eq_findCondition, hnone]
    exact ⟨rfl, rfl⟩
  · intro c hc hu
    refine hother c hc ?_ ?_
    · rw [hu]; decide
    · rw [hu]; decide

/-- C20 at concrete inputs: with `Established` stored as `Unknown` both
predicates are false, and so they are on an object without conditions. -/
theorem true_and_false_exclusive_witness :
    (IsCRDConditionTrue (newCRD "foos.bar.io"
        [{ establishedCondition with Status := ConditionUnknown }] []) "Established" = false ∧
      IsCRDConditionFalse (newCRD "foos.bar.io"
        [{ establishedCondition with Status := ConditionUnknown }] []) "Established" = false) ∧
    (IsCRDConditionTrue (newCRD "foos.bar.io" [] []) "Established" = false ∧
      IsCRDConditionFalse (newCRD "foos.bar.io" [] []) "Established" = false) :=
  ⟨(true_and_false_exclusive (newCRD "foos.bar.io"
        [{ establishedCondition with Status := ConditionUnknown }] []) "Established").2.2.2
      { establishedCondition with Status := ConditionUnknown } (by decide) rfl,
   (true_and_false_exclusive (newCRD "foos.bar.io" [] []) "Established").2.1 (by decide)⟩

/-! ## The establishment poller: lemmas and claims -/

/-- A snapshot that shows neither terminal state makes the loop go on. -/
theorem pollLoop_step_retry (backoff : Backoff) (client : StoreClient) (name : String)
    (remaining fetched interval : Nat) (sleeps : List Nat)
    (hnot : IsCRDConditionTrue (client fetched name) Established = false)
    (hacc : IsCRDConditionFalse (client fetched name) NamesAccepted = false) :
    pollLoop backoff client name (remaining + 1) fetched interval sleeps =
      pollLoop backoff client name remaining (fetched + 1) (interval * backoff.factor)
        (sleeps ++ [interval]) := by
  unfold IsCRDConditionFalse at hacc
  rw [presentAndEqual_eq_findCondition] at hacc
  cases hfc : findCondition (client fetched name) NamesAccepted with
  | none => simp [pollLoop, hnot, hfc]
  | some c =>
    rw [hfc] at hacc
    have hne : ¬ c.Status = ConditionFalse := of_decide_eq_false hacc
    simp [pollLoop, hnot, hfc, hne]

/-- With every snapshot of the remaining attempts showing neither terminal
state, the loop uses the whole budget and times out. -/
theorem pollLoop_timeout (backoff : Backoff) (client : StoreClient) (name : String)
    (remaining fetched interval : Nat) (sleeps : List Nat)
    (hnever : ∀ k, fetched ≤ k → k < fetched + remaining →
      IsCRDConditionTrue (client k name) Established = false ∧
        IsCRDConditionFalse (client k name) NamesAccepted = false) :
    (pollLoop backoff client name remaining fetched interval sleeps).fetches =
        fetched + remaining ∧
      (pollLoop backoff client name remaining fetched interval sleeps).err =
        some (timeoutMessage name) ∧
      (pollLoop backoff client name remaining fetched interval sleeps).sleeps.length =
        sleeps.length + remaining := by
  induction remaining generalizing fetched interval sleeps with
  | zero => simp [pollLoop]
  | succ n ih =>
    have h0 := hnever fetched (Nat.le_refl _) (by omega)
    rw [pollLoop_step_retry backoff client name n fetched interval sleeps h0.1 h0.2]
    have hih := ih (fetched + 1) (interval * backoff.factor) (sleeps ++ [interval])
      (fun k hk1 hk2 => hnever k (by omega) (by omega))
    refine ⟨?_, hih.2.1, ?_⟩
    · rw [hih.1]; omega
    · rw [hih.2.2, List.length_append, List.length_singleton]; omega

/-- C12: when the budget allows a fetch and the snapshot fetched first shows
`Established` absent or not `True` and `NamesAccepted` present with status
`False`, `ensureCRD` returns the error "Due to the naming conflict REASON, the
CustomResourceDefinition NAME will never become established", with the reason
of the `NamesAccepted` condition and the name of the object, after one fetch
and without a sleep. -/
theorem ensureCRD_permanent_conflict (backoff : Backoff) (client : StoreClient)
    (crd : CustomResourceDefinition) (condition : CustomResourceDefinitionCondition)
    (hbudget : 0 < backoff.retries)
    (hnot : IsCRDConditionTrue (client 0 crd.Name) Established = false)
    (hfind : findCondition (client 0 crd.Name) NamesAccepted = some condition)
    (hfalse : condition.Status = ConditionFalse) :
    ensureCRD backoff client crd =
        some ("Due to the naming conflict " ++ condition.Reason ++
          ", the CustomResourceDefinition " ++ crd.Name ++ " will never become established") ∧
      (ensureCRDRun backoff client crd).fetches = 1 ∧
      (ensureCRDRun backoff client crd).sleeps = [] := by
  obtain ⟨n, hn⟩ : ∃ n, backoff.retries = n + 1 := ⟨backoff.retries - 1, by omega⟩
  unfold ensureCRD ensureCRDRun
  rw [hn]
  simp [pollLoop, hnot, hfind, hfalse, conflictMessage]

/-- C12 on the test case "will never be established", with a budget of three
attempts: the conflict is returned after one fetch. -/
theorem ensureCRD_permanent_conflict_witness :
    ensureCRD threeAttempts (fakeClient [foosConflict]) foos =
        some ("Due to the naming conflict TestConflict, the CustomResourceDefinition " ++
          "foos.bar.io will never become established") ∧
      (ensureCRDRun threeAttempts (fakeClient [foosConflict]) foos).fetches = 1 ∧
      (ensureCRDRun threeAttempts (fakeClient [foosConflict]) foos).sleeps = [] :=
  ensureCRD_permanent_conflict threeAttempts (fakeClient [foosConflict]) foos
    notAcceptedCondition (by decide) (by decide) (by decide) (by decide)

/-- C13: when no fetched snapshot shows `Established = True` or
`NamesAccepted = False`, `ensureCRD` makes exactly `retries` fetches and
returns the error "CustomResourceDefinition NAME was not established within a
reasonable amount of time." for the name of the object; and when the budget
allows a fetch and the snapshot fetched first shows `Established = True`, it
returns no error after that one fetch, without a sleep. -/
theorem ensureCRD_timeout_or_established (backoff : Backoff) (client : StoreClient)
    (crd : CustomResourceDefinition) :
    ((∀ k, k < backoff.retries →
        IsCRDConditionTrue (client k crd.Name) Established = false ∧
          IsCRDConditionFalse (client k crd.Name) NamesAccepted = false) →
      (ensureCRDRun backoff client crd).fetches = backoff.retries ∧
        ensureCRD backoff client crd =
          some ("CustomResourceDefinition " ++ crd.Name ++
            " was not established within a reasonable amount of time.")) ∧
    (0 < backoff.retries →
      IsCRDConditionTrue (client 0 crd.Name) Established = true →
      ensureCRD backoff client crd = none ∧
        (ensureCRDRun backoff client crd).fetches = 1 ∧
        (ensureCRDRun backoff client crd).sleeps = []) := by
  constructor
  · intro hnever
    have h := pollLoop_timeout backoff client crd.Name backoff.retries 0 backoff.interval []
      (fun k _ hk => hnever k (by omega))
    unfold ensureCRD ensureCRDRun
    refine ⟨by rw [h.1]; omega, ?_⟩
    rw [h.2.1]
    rfl
  · intro hbudget hest
    obtain ⟨n, hn⟩ : ∃ n, backoff.retries = n + 1 := ⟨backoff.retries - 1, by omega⟩
    unfold ensureCRD ensureCRDRun
    rw [hn]
    simp [pollLoop, hest]

/-- C13 on the test cases "timeout" and "established", with a budget of three
attempts: three fetches, then the timeout; one fetch and no sleep for the
established object. -/
theorem ensureCRD_timeout_or_established_witness :
    ((ensureCRDRun threeAttempts (fakeClient [foos]) foos).fetches = 3 ∧
      ensureCRD threeAttempts (fakeClient [foos]) foos =
        some ("CustomResourceDefinition foos.bar.io was not established within a " ++
          "reasonable amount of time.")) ∧
    (ensureCRD threeAttempts (fakeClient [foosEstablished]) foos = none ∧
      (ensureCRDRun threeAttempts (fakeClient [foosEstablished]) foos).fetches = 1 ∧
      (ensureCRDRun threeAttempts (fakeClient [foosEstablished]) foos).sleeps = []) :=
  ⟨(ensureCRD_timeout_or_established threeAttempts (fakeClient [foos]) foos).1
      (fun _ _ => ⟨rfl, rfl⟩),
   (ensureCRD_timeout_or_established threeAttempts (fakeClient [foosEstablished]) foos).2
      (by decide) (by decide)⟩

theorem nameLE_iff (a b : String) : nameLE a b ↔ a ≤ b :=
  String.le_iff_toList_le.symm

instance : IsTotal String nameLE :=
  ⟨fun a b => by rw [nameLE_iff, nameLE_iff]; exact le_total a b⟩

instance : IsTrans String nameLE :=
  ⟨fun a b c => by rw [nameLE_iff, nameLE_iff, nameLE_iff]; exact le_trans⟩

instance : IsAntisymm String nameLE :=
  ⟨fun a b => by rw [nameLE_iff, nameLE_iff]; exact le_antisymm⟩

instance : IsTotal (String × String) (fun a b => nameLE a.1 b.1) :=
  ⟨fun a b => total_of nameLE a.1 b.1⟩

instance : IsTrans (String × String) (fun a b => nameLE a.1 b.1) :=
  ⟨fun a b c hab hbc => @IsTrans.trans String nameLE _ a.1 b.1 c.1 hab hbc⟩

/-- The failure collected for the object of a given name, if it fails. -/
theorem collectFailures_eq (backoff : Backoff) (client : StoreClient)
    (crds : List CustomResourceDefinition) :
    collectFailures backoff client crds =
      (crds.map (fun crd => crd.Name)).filterMap
        (fun name => (errorOfName backoff client name).map (fun e => (name, e))) := by
  rw [List.filterMap_map]
  rfl

theorem filterMap_fst_recover (g : String → Option String) (l : List (String × String))
    (h : ∀ p ∈ l, (g p.1).map (fun e => (p.1, e)) = some p) :
    (l.map (fun p => p.1)).filterMap (fun name => (g name).map (fun e => (name, e))) = l := by
  induction l with
  | nil => rfl
  | cons a l ih =>
    have ha := h a (by simp)
    have hl : ∀ p ∈ l, (g p.1).map (fun e => (p.1, e)) = some p :=
      fun p hp => h p (by simp [hp])
    rw [List.map_cons,
      List.filterMap_cons_some (f := fun name => (g name).map (fun e => (name, e))) ha, ih hl]

theorem mem_filterMap_pair (g : String → Option String) (l : List String) (p : String × String)
    (hp : p ∈ l.filterMap (fun name => (g name).map (fun e => (name, e)))) :
    (g p.1).map (fun e => (p.1, e)) = some p := by
  rcases List.mem_filterMap.1 hp with ⟨name, -, hname⟩
  cases hg : g name with
  | none => rw [hg] at hname; cases hname
  | some e =>
    rw [hg] at hname
    simp only [Option.map_some', Option.some.injEq] at hname
    subst hname
    simp [hg]

/-- Sorting the collected failures by name gives the failures of the names
taken in ascending order. -/
theorem sort_failures_eq (g : String → Option String) (names : List String) :
    (names.filterMap (fun name => (g name).map (fun e => (name, e)))).insertionSort
        (fun a b => nameLE a.1 b.1) =
      (names.insertionSort nameLE).filterMap (fun name => (g name).map (fun e => (name, e))) := by
  have hpermA := List.perm_insertionSort (fun a b : String × String => nameLE a.1 b.1)
    (names.filterMap (fun name => (g name).map (fun e => (name, e))))
  have hpermB : List.Perm
      ((names.insertionSort nameLE).filterMap (fun name => (g name).map (fun e => (name, e))))
      (names.filterMap (fun name => (g name).map (fun e => (name, e)))) :=
    (List.perm_insertionSort nameLE names).filterMap _
  have hsortA := List.sorted_insertionSort (fun a b : String × String => nameLE a.1 b.1)
    (names.filterMap (fun name => (g name).map (fun e => (name, e))))
  have hsortB : List.Pairwise (fun a b : String × String => nameLE a.1 b.1)
      ((names.insertionSort nameLE).filterMap (fun name => (g name).map (fun e => (name, e)))) := by
    refine List.Pairwise.filterMap _ ?_ (List.sorted_insertionSort nameLE names)
    intro a a2 haa b hb b2 hb2
    cases hga : g a with
    | none => rw [hga] at hb; cases hb
    | some e =>
      cases hga2 : g a2 with
      | none => rw [hga2] at hb2; cases hb2
      | some e2 =>
        rw [hga] at hb
        rw [hga2] at hb2
        simp only [Option.map_some', Option.mem_def, Option.some.injEq] at hb hb2
        subst hb
        subst hb2
        exact haa
  have hfst : ((names.filterMap (fun name => (g name).map (fun e => (name, e)))).insertionSort
        (fun a b => nameLE a.1 b.1)).map (fun p => p.1) =
      ((names.insertionSort nameLE).filterMap
        (fun name => (g name).map (fun e => (name, e)))).map (fun p => p.1) := by
    refine List.eq_of_perm_of_sorted (r := nameLE) ((hpermA.trans hpermB.symm).map _) ?_ ?_
    · exact List.pairwise_map.2 hsortA
    · exact List.pairwise_map.2 hsortB
  have hrecA := filterMap_fst_recover g _
    (fun p hp => mem_filterMap_pair g names p (hpermA.mem_iff.1 hp))
  have hrecB := filterMap_fst_recover g _
    (fun p hp => mem_filterMap_pair g names p (hpermB.mem_iff.1 hp))
  rw [← hrecA, hfst, hrecB]

/-- The closed form of `EnsureCRDs`: the errors of the names taken in
ascending order, wrapped when there is at least one. -/
theorem EnsureCRDs_eq (backoff : Backoff) (client : StoreClient)
    (crds : List CustomResourceDefinition) :
    EnsureCRDs backoff client crds =
      match ((crds.map (fun crd => crd.Name)).insertionSort nameLE).filterMap
          (errorOfName backoff client) with
      | [] => none
      | first :: others => some { errors := first :: others } := by
  have hsnd : ∀ l : List String,
      (l.filterMap (fun name => (errorOfName backoff client name).map (fun e => (name, e)))).map
          (fun a => a.2) = l.filterMap (errorOfName backoff client) := by
    intro l
    rw [List.map_filterMap]
    congr 1
    funext name
    cases errorOfName backoff client name <;> rfl
  unfold EnsureCRDs
  rw [collectFailures_eq, sort_failures_eq, ← hsnd]
  cases ((crds.map (fun crd => crd.Name)).insertionSort nameLE).filterMap
      (fun name => (errorOfName backoff client name).map (fun e => (name, e))) <;> rfl

/-- C14: `EnsureCRDs` returns no error exactly when `ensureCRD` succeeds for
every definition of the batch. Otherwise it returns one aggregate whose
messages are the errors of the failing definitions, each once, taken in
ascending order of object name, and rendered one per line; the result does not
depend on the order of the definitions in the batch. -/
theorem EnsureCRDs_aggregate (backoff : Backoff) (client : StoreClient)
    (crds : List CustomResourceDefinition) :
    (EnsureCRDs backoff client crds = none ↔
        ∀ crd ∈ crds, ensureCRD backoff client crd = none) ∧
    (∀ agg, EnsureCRDs backoff client crds = some agg →
        List.Perm agg.errors (crds.filterMap (ensureCRD backoff client)) ∧
        agg.errors = ((crds.map (fun crd => crd.Name)).insertionSort nameLE).filterMap
          (errorOfName backoff client) ∧
        agg.Error = String.intercalate "\n" agg.errors) ∧
    List.Sorted nameLE ((crds.map (fun crd => crd.Name)).insertionSort nameLE) ∧
    (∀ crd : CustomResourceDefinition,
        errorOfName backoff client crd.Name = ensureCRD backoff client crd) ∧
    (∀ crds2, List.Perm crds2 crds →
        EnsureCRDs backoff client crds2 = EnsureCRDs backoff client crds) := by
  refine ⟨?_, ?_, List.sorted_insertionSort nameLE _, fun _ => rfl, ?_⟩
  · rw [EnsureCRDs_eq]
    have hnil : ((crds.map (fun crd => crd.Name)).insertionSort nameLE).filterMap
        (errorOfName backoff client) = [] ↔ ∀ crd ∈ crds, ensureCRD backoff client crd = none := by
      rw [List.filterMap_eq_nil_iff]
      constructor
      · intro h crd hcrd
        exact h crd.Name
          ((List.perm_insertionSort nameLE _).mem_iff.2 (List.mem_map.2 ⟨crd, hcrd, rfl⟩))
      · intro h name hname
        rcases List.mem_map.1 ((List.perm_insertionSort nameLE _).mem_iff.1 hname) with
          ⟨crd, hcrd, hn⟩
        rw [← hn]
        exact h crd hcrd
    rw [← hnil]
    cases ((crds.map (fun crd => crd.Name)).insertionSort nameLE).filterMap
        (errorOfName backoff client) <;> simp
  · intro agg hagg
    rw [EnsureCRDs_eq] at hagg
    have herrors : agg.errors = ((crds.map (fun crd => crd.Name)).insertionSort nameLE).filterMap
        (errorOfName backoff client) := by
      cases hE : ((crds.map (fun crd => crd.Name)).insertionSort nameLE).filterMap
          (errorOfName backoff client) with
      | nil => rw [hE] at hagg; cases hagg
      | cons first others =>
        rw [hE] at hagg
        simp only [Option.some.injEq] at hagg
        rw [← hagg]
    refine ⟨?_, herrors, rfl⟩
    rw [herrors]
    have hperm := (List.perm_insertionSort nameLE (crds.map (fun crd => crd.Name))).filterMap
      (errorOfName backoff client)
    rw [List.filterMap_map] at hperm
    exact hperm
  · intro crds2 hperm
    rw [EnsureCRDs_eq, EnsureCRDs_eq]
    have hnames : (crds2.map (fun crd => crd.Name)).insertionSort nameLE =
        (crds.map (fun crd => crd.Name)).insertionSort nameLE := by
      refine List.eq_of_perm_of_sorted (r := nameLE) ?_ (List.sorted_insertionSort nameLE _)
        (List.sorted_insertionSort nameLE _)
      exact ((List.perm_insertionSort nameLE _).trans (hperm.map _)).trans
        (List.perm_insertionSort nameLE _).symm
    rw [hnames]

/-- C14 on the test case "aggregate errors": the batch `foos.bar.io`,
`bars.foo.io`, both timing out, gives the timeout of `bars.foo.io` before the
timeout of `foos.bar.io`, one per line, and the same for the batch in the other
order; a batch of established objects gives no error. -/
theorem EnsureCRDs_aggregate_witness :
    EnsureCRDs testBackoff (fakeClient [foos, bars]) [foos, bars] =
      some { errors :=
        ["CustomResourceDefinition bars.foo.io was not established within a reasonable amount of time.",
         "CustomResourceDefinition foos.bar.io was not established within a reasonable amount of time."] } ∧
    EnsureCRDs testBackoff (fakeClient [foos, bars]) [bars, foos] =
      EnsureCRDs testBackoff (fakeClient [foos, bars]) [foos, bars] ∧
    Aggregate.Error { errors :=
        ["CustomResourceDefinition bars.foo.io was not established within a reasonable amount of time.",
         "CustomResourceDefinition foos.bar.io was not established within a reasonable amount of time."] } =
      "CustomResourceDefinition bars.foo.io was not established within a reasonable amount of time.\nCustomResourceDefinition foos.bar.io was not established within a reasonable amount of time." ∧
    EnsureCRDs testBackoff (fakeClient [foosEstablished]) [foosEstablished] = none :=
  ⟨by decide,
   (EnsureCRDs_aggregate testBackoff (fakeClient [foos, bars]) [foos, bars]).2.2.2.2
     [bars, foos] (List.Perm.swap foos bars []),
   by decide,
   (EnsureCRDs_aggregate testBackoff (fakeClient [foosEstablished]) [foosEstablished]).1.2
     (by decide)⟩

end Utils
